import Mathlib

/-!
Verification of the Game of Life grid engine (src/src/lib.rs).

The Rust source is shallowly embedded: `Cell` and `Universe` mirror the Rust
types, vectors become lists, and `u32`/`usize` arithmetic is modelled with
ideal natural numbers (the source itself leaves 2^32 overflow as an open
question and no claim touches it).  In-bounds vector indexing is modelled
with a defaulting lookup (`getD`); the one place where an out-of-bounds
index is claim-relevant, the constructor `Universe.new`, is modelled in
`Option`, with `none` standing for the Rust panic on an out-of-bounds write.
-/

/-- The two cell states; the numeric values (Dead = 0, Alive = 1) match the
Rust `repr(u8)` enum and are exposed by `Cell.val`. -/
inductive Cell where
  | Dead : Cell
  | Alive : Cell
deriving DecidableEq, Repr

/-- The numeric value of a cell, as used by the Rust code when it sums
neighbours with `self.cells[idx] as u8`. -/
def Cell.val : Cell → Nat
  | Cell.Dead => 0
  | Cell.Alive => 1

/-- The grid: `width`, `height` and the row-major cell vector, mirroring the
Rust struct `Universe`. -/
structure Universe where
  width : Nat
  height : Nat
  cells : List Cell
deriving DecidableEq, Repr

namespace Universe

/-- Rust `Universe::get_index`: `(row * self.width + column) as usize`. -/
def get_index (u : Universe) (row column : Nat) : Nat :=
  row * u.width + column

/-- Indexing `self.cells[idx]`; out-of-bounds reads default to `Dead`
(the Rust code would panic there, and every theorem that uses this
definition carries hypotheses that keep the index in bounds). -/
def getCell (u : Universe) (idx : Nat) : Cell :=
  u.cells.getD idx Cell.Dead

/-- Rust `Universe::new`: allocate `width * height` dead cells, then set each
listed coordinate alive at index `row * width + column`.  The Rust indexed
write `cells[idx] = Cell::Alive` panics when `idx` is out of bounds; that
failure is modelled as `none`. -/
def new (width height : Nat) (alive_cells : List (Nat × Nat)) : Option Universe :=
  (alive_cells.foldlM
      (fun (cells : List Cell) (rc : Nat × Nat) =>
        let idx := rc.1 * width + rc.2
        if idx < cells.length then some (cells.set idx Cell.Alive) else none)
      (List.replicate (width * height) Cell.Dead)).map
    (fun cells => { width := width, height := height, cells := cells })

/-- Rust `Universe::alive_neighbour_count`: iterate `row_iter` over
`[height - 1, 0, 1]` and `column_iter` over `[width - 1, 0, 1]`, skip the
`(0, 0)` pair, and sum the neighbour values at
`((row + row_iter) % height, (column + column_iter) % width)`. -/
def alive_neighbour_count (u : Universe) (row column : Nat) : Nat :=
  [u.height - 1, 0, 1].foldl
    (fun acc row_iter =>
      [u.width - 1, 0, 1].foldl
        (fun acc column_iter =>
          if row_iter = 0 ∧ column_iter = 0 then
            acc
          else
            let neighbour_row := (row + row_iter) % u.height
            let neighbour_column := (column + column_iter) % u.width
            let idx := u.get_index neighbour_row neighbour_column
            acc + (u.getCell idx).val)
        acc)
    0

/-- Rust `Universe::cell_transform`: Conway's rules as a match with a guard
`x < 2 || x > 3` on the alive arm. -/
def cell_transform (current_cell : Cell) (count : Nat) : Cell :=
  match current_cell, count with
  | Cell.Alive, x => if x < 2 ∨ x > 3 then Cell.Dead else Cell.Alive
  | Cell.Dead, 3 => Cell.Alive
  | Cell.Dead, _ => Cell.Dead

/-- Rust `Universe::tick`: clone the cell vector, then for every
`(row, column)` in scan order write
`cell_transform(self.cells[idx], alive_neighbour_count(row, column))` into
the clone at `idx = get_index(row, column)`, reading only from the old
vector; finally replace the cell vector with the clone. -/
def tick (u : Universe) : Universe :=
  let new_cells :=
    (List.range u.height).foldl
      (fun cells row =>
        (List.range u.width).foldl
          (fun cells column =>
            let idx := u.get_index row column
            let current_cell := u.getCell idx
            let count := u.alive_neighbour_count row column
            cells.set idx (cell_transform current_cell count))
          cells)
      u.cells
  { u with cells := new_cells }

/-- `n` successive calls to `tick` (the spec's `advanceGeneration`). -/
def ticks : Nat → Universe → Universe
  | 0, u => u
  | n + 1, u => ticks n u.tick

end Universe

/-- Rust slice `chunks`: split a list into consecutive chunks of size `n`
(the final chunk may be shorter).  Rust panics on `n = 0`; the model returns
`[]` there, and every use keeps `n` positive. -/
def chunksOf (n : Nat) : List Cell → List (List Cell)
  | [] => []
  | x :: xs =>
    if _hn : n = 0 then []
    else (x :: xs).take n :: chunksOf n ((x :: xs).drop n)
termination_by l => l.length
decreasing_by
  simp only [List.length_drop, List.length_cons]
  omega

/-- The glyph the `Display` impl writes for a cell. -/
def Cell.glyph : Cell → Char
  | Cell.Dead => '◻'
  | Cell.Alive => '◼'

namespace Universe

/-- The character stream produced by the Rust `Display` impl: for each
width-sized chunk of the cell vector, one glyph per cell and then a
newline. -/
def renderChars (u : Universe) : List Char :=
  ((chunksOf u.width u.cells).map (fun line => line.map Cell.glyph ++ ['\n'])).flatten

/-- Rust `Universe::render`: `self.to_string()`. -/
def render (u : Universe) : String :=
  String.mk u.renderChars

end Universe

/-- The specification formula for neighbour counting: the sum, over the 8
offset pairs in `{-1, 0, +1} × {-1, 0, +1}` minus `(0, 0)`, of the value of
the cell at `((row + dRow + height) % height, (col + dCol + width) % width)`,
with the additive bias applied before the modulo. -/
def specNeighbourSum (u : Universe) (row column : Nat) : Nat :=
  ([(-1, -1), (-1, 0), (-1, 1), (0, -1), (0, 1), (1, -1), (1, 0), (1, 1)] :
      List (Int × Int)).foldl
    (fun acc d =>
      let neighbour_row := ((row : Int) + d.1 + u.height).toNat % u.height
      let neighbour_column := ((column : Int) + d.2 + u.width).toNat % u.width
      acc + (u.getCell (u.get_index neighbour_row neighbour_column)).val)
    0

lemma Cell.val_le_one (c : Cell) : c.val ≤ 1 := by cases c <;> simp [Cell.val]

/-- Claim C2: for every state and every neighbour count in `[0, 8]`,
`cell_transform` returns exactly the value of the rule table: alive with
fewer than 2 dies, alive with 2 or 3 survives, alive with more than 3 dies,
dead with exactly 3 becomes alive, dead otherwise stays dead. -/
theorem cell_transform_matches_rule_table (c : Cell) (n : Nat) (hn : n ≤ 8) :
    Universe.cell_transform c n =
      match c with
      | Cell.Alive =>
          if n < 2 then Cell.Dead
          else if n = 2 ∨ n = 3 then Cell.Alive
          else Cell.Dead
      | Cell.Dead => if n = 3 then Cell.Alive else Cell.Dead := by
  interval_cases n <;> cases c <;> rfl

/-- Witness for C2 at the pair (Dead, 3). -/
theorem cell_transform_matches_rule_table_witness :
    (3 : Nat) ≤ 8 ∧
      Universe.cell_transform Cell.Dead 3 =
        match Cell.Dead with
        | Cell.Alive =>
            if (3 : Nat) < 2 then Cell.Dead
            else if (3 : Nat) = 2 ∨ (3 : Nat) = 3 then Cell.Alive
            else Cell.Dead
        | Cell.Dead => if (3 : Nat) = 3 then Cell.Alive else Cell.Dead :=
  ⟨by decide, cell_transform_matches_rule_table Cell.Dead 3 (by decide)⟩

/-- A concrete 1-wide, 4-tall grid used as the C10 witness input. -/
def sampleColumnGrid : Universe :=
  { width := 1, height := 4,
    cells := [Cell.Dead, Cell.Alive, Cell.Dead, Cell.Dead] }

/-- Claim C10: on a grid with `width = 1` and `height ≥ 2`, the neighbour
count of `(r, 0)` is three times the value of the cell in the row above
(wrapped) plus the value at `(r, 0)` itself plus three times the value of
the cell in the row below (wrapped) — the cell's own state contributes
exactly once — and in particular the count never exceeds 7. -/
theorem alive_neighbour_count_width_one (u : Universe) (r : Nat)
    (hw : u.width = 1) (hh : 2 ≤ u.height) (hr : r < u.height) :
    u.alive_neighbour_count r 0 =
        3 * (u.getCell (u.get_index ((r + u.height - 1) % u.height) 0)).val
          + (u.getCell (u.get_index r 0)).val
          + 3 * (u.getCell (u.get_index ((r + 1) % u.height) 0)).val
      ∧ u.alive_neighbour_count r 0 ≤ 7 := by
  obtain ⟨w, h, cells⟩ := u
  simp only [Universe.width] at hw
  simp only [Universe.height] at hh hr
  subst hw
  have h1 : ¬(h - 1 = 0) := by omega
  have e1 : r + (h - 1) = r + h - 1 := by omega
  have e2 : r % h = r := Nat.mod_eq_of_lt hr
  have a1 := Cell.val_le_one ((cells[(r + h - 1) % h]?).getD Cell.Dead)
  have a2 := Cell.val_le_one ((cells[r]?).getD Cell.Dead)
  have a3 := Cell.val_le_one ((cells[(r + 1) % h]?).getD Cell.Dead)
  simp [Universe.alive_neighbour_count, Universe.getCell, Universe.get_index,
    h1, e1, e2]
  omega

/-- Witness for C10 on `sampleColumnGrid` at row 2. -/
theorem alive_neighbour_count_width_one_witness :
    sampleColumnGrid.width = 1 ∧ 2 ≤ sampleColumnGrid.height ∧
      2 < sampleColumnGrid.height ∧
      (sampleColumnGrid.alive_neighbour_count 2 0 =
          3 * (sampleColumnGrid.getCell
                (sampleColumnGrid.get_index
                  ((2 + sampleColumnGrid.height - 1) % sampleColumnGrid.height) 0)).val
            + (sampleColumnGrid.getCell (sampleColumnGrid.get_index 2 0)).val
            + 3 * (sampleColumnGrid.getCell
                    (sampleColumnGrid.get_index
                      ((2 + 1) % sampleColumnGrid.height) 0)).val
        ∧ sampleColumnGrid.alive_neighbour_count 2 0 ≤ 7) :=
  ⟨by decide, by decide, by decide,
    alive_neighbour_count_width_one sampleColumnGrid 2 (by decide) (by decide)
      (by decide)⟩

/-- A concrete 4 by 4 grid with alive cells at (0,2) and (2,2), used as the
C3 witness input. -/
def sampleWrapGrid : Universe :=
  { width := 4, height := 4,
    cells :=
      [Cell.Dead, Cell.Dead, Cell.Alive, Cell.Dead,
       Cell.Dead, Cell.Dead, Cell.Dead, Cell.Dead,
       Cell.Dead, Cell.Dead, Cell.Alive, Cell.Dead,
       Cell.Dead, Cell.Dead, Cell.Dead, Cell.Dead] }

/-- Claim C3: on a grid with `width ≥ 2` and `height ≥ 2`, the neighbour
count at any in-range position equals the sum over the 8 offset pairs in
`{-1, 0, +1} × {-1, 0, +1}` minus `(0, 0)` of the value of the cell at the
wrapped coordinate `((row + dRow + height) % height,
(col + dCol + width) % width)`. -/
theorem alive_neighbour_count_matches_offsets (u : Universe) (row col : Nat)
    (hw : 2 ≤ u.width) (hh : 2 ≤ u.height)
    (hr : row < u.height) (hc : col < u.width) :
    u.alive_neighbour_count row col = specNeighbourSum u row col := by
  obtain ⟨w, h, cells⟩ := u
  simp only [Universe.width] at hw hc
  simp only [Universe.height] at hh hr
  have h1 : ¬(h - 1 = 0) := by omega
  have w1 : ¬(w - 1 = 0) := by omega
  have er1 : ((row : Int) + -1 + (h : Int)).toNat = row + (h - 1) := by omega
  have er2 : ((row : Int) + 0 + (h : Int)).toNat = row + h := by omega
  have er3 : ((row : Int) + 1 + (h : Int)).toNat = row + 1 + h := by omega
  have ec1 : ((col : Int) + -1 + (w : Int)).toNat = col + (w - 1) := by omega
  have ec2 : ((col : Int) + 0 + (w : Int)).toNat = col + w := by omega
  have ec3 : ((col : Int) + 1 + (w : Int)).toNat = col + 1 + w := by omega
  have er4 : ((row : Int) + (h : Int)).toNat = row + h := by omega
  have ec4 : ((col : Int) + (w : Int)).toNat = col + w := by omega
  simp [Universe.alive_neighbour_count, specNeighbourSum, Universe.getCell,
    Universe.get_index, h1, w1, er1, er2, er3, ec1, ec2, ec3, er4, ec4,
    Nat.add_mod_right]

/-- Witness for C3 on `sampleWrapGrid` at position (3, 2). -/
theorem alive_neighbour_count_matches_offsets_witness :
    2 ≤ sampleWrapGrid.width ∧ 2 ≤ sampleWrapGrid.height ∧
      3 < sampleWrapGrid.height ∧ 2 < sampleWrapGrid.width ∧
      sampleWrapGrid.alive_neighbour_count 3 2 = specNeighbourSum sampleWrapGrid 3 2 :=
  ⟨by decide, by decide, by decide, by decide,
    alive_neighbour_count_matches_offsets sampleWrapGrid 3 2 (by decide) (by decide)
      (by decide) (by decide)⟩
/-- A left fold whose step keeps the list length fixed keeps it fixed
overall. -/
theorem foldl_preserves_length {α : Type} (step : List Cell → α → List Cell)
    (hstep : ∀ cs a, (step cs a).length = cs.length) :
    ∀ (l : List α) (cells : List Cell), (l.foldl step cells).length = cells.length := by
  intro l
  induction l with
  | nil => intro cells; rfl
  | cons a t ih => intro cells; rw [List.foldl_cons, ih, hstep]

lemma getD_set_eq (l : List Cell) (i : Nat) (a : Cell) (h : i < l.length) :
    (l.set i a).getD i Cell.Dead = a := by
  simp [List.getD_eq_getElem?_getD, List.getElem?_set_eq_of_lt, h]

lemma getD_set_ne (l : List Cell) (i j : Nat) (a : Cell) (h : i ≠ j) :
    (l.set i a).getD j Cell.Dead = l.getD j Cell.Dead := by
  simp [List.getD_eq_getElem?_getD, List.getElem?_set_ne h]

/-- One row of writes: setting positions `base + c` for `c < n` to `g c`
changes exactly the window `[base, base + n)`. -/
theorem inner_fold_getD (base : Nat) (g : Nat → Cell) :
    ∀ (n : Nat) (cells : List Cell) (j : Nat), base + n ≤ cells.length →
      (((List.range n).foldl (fun cs c => cs.set (base + c) (g c)) cells).getD j Cell.Dead) =
        if base ≤ j ∧ j < base + n then g (j - base) else cells.getD j Cell.Dead := by
  intro n
  induction n with
  | zero =>
    intro cells j hb
    have hcond : ¬(base ≤ j ∧ j < base + 0) := by omega
    simp only [List.range_zero, List.foldl_nil]
    rw [if_neg hcond]
  | succ n ih =>
    intro cells j hb
    have hlen : ((List.range n).foldl (fun cs c => cs.set (base + c) (g c)) cells).length
        = cells.length :=
      foldl_preserves_length _ (fun cs a => List.length_set ..) _ _
    rw [List.range_succ, List.foldl_append]
    simp only [List.foldl_cons, List.foldl_nil]
    by_cases hj : j = base + n
    · subst hj
      rw [getD_set_eq]
      · have hcond : base ≤ base + n ∧ base + n < base + (n + 1) := by omega
        rw [if_pos hcond]
        congr 1
        omega
      · omega
    · rw [getD_set_ne _ _ _ _ (by omega)]
      rw [ih cells j (by omega)]
      have hiff : (base ≤ j ∧ j < base + n) ↔ (base ≤ j ∧ j < base + (n + 1)) := by omega
      by_cases hc : base ≤ j ∧ j < base + n
      · rw [if_pos hc, if_pos (hiff.mp hc)]
      · rw [if_neg hc, if_neg (fun hx => hc (hiff.mpr hx))]

/-- The scan of `tick`: after writing `f row column` at `row * W + column`
for every row below `m` and column below `W`, the entry at `row * W + col`
is `f row col`. -/
theorem nested_fold_getD (W : Nat) (f : Nat → Nat → Cell) :
    ∀ (m : Nat) (cells : List Cell) (row col : Nat), m * W ≤ cells.length →
      row < m → col < W →
      (((List.range m).foldl
          (fun cs row2 =>
            (List.range W).foldl
              (fun cs2 column => cs2.set (row2 * W + column) (f row2 column)) cs)
          cells).getD (row * W + col) Cell.Dead) = f row col := by
  intro m
  induction m with
  | zero => intro cells row col hb hr hc; omega
  | succ m ih =>
    intro cells row col hb hr hc
    have hstep : ∀ (cs : List Cell) (row2 : Nat),
        ((List.range W).foldl
          (fun cs2 column => cs2.set (row2 * W + column) (f row2 column)) cs).length
          = cs.length :=
      fun cs row2 => foldl_preserves_length _ (fun cs2 a => List.length_set ..) _ _
    have hlen : ((List.range m).foldl
        (fun cs row2 =>
          (List.range W).foldl
            (fun cs2 column => cs2.set (row2 * W + column) (f row2 column)) cs)
        cells).length = cells.length :=
      foldl_preserves_length _ hstep _ _
    have hmul : (m + 1) * W = m * W + W := by ring
    rw [List.range_succ, List.foldl_append]
    simp only [List.foldl_cons, List.foldl_nil]
    rw [inner_fold_getD (m * W) (f m) W _ (row * W + col) (by omega)]
    by_cases hrow : row = m
    · subst hrow
      have hcond : row * W ≤ row * W + col ∧ row * W + col < row * W + W := by omega
      rw [if_pos hcond]
      congr 1
      omega
    · have hrm : row + 1 ≤ m := by omega
      have hlt : row * W + col < m * W := by
        have h1 : row * W + col < (row + 1) * W := by
          have : (row + 1) * W = row * W + W := by ring
          omega
        have h2 : (row + 1) * W ≤ m * W := Nat.mul_le_mul_right W hrm
        omega
      have hcond : ¬(m * W ≤ row * W + col ∧ row * W + col < m * W + W) := by omega
      rw [if_neg hcond]
      exact ih cells row col (by omega) (by omega) hc

/-- Claim C1: for every grid and every in-range position, one `tick` leaves
at that position exactly `cell_transform` of the pre-call cell and the
pre-call neighbour count; every read is taken from the pre-call snapshot,
so the per-position result does not depend on the scan order. -/
theorem tick_pointwise (u : Universe) (row col : Nat)
    (hc : u.cells.length = u.width * u.height)
    (hr : row < u.height) (hcol : col < u.width) :
    u.tick.getCell (u.get_index row col) =
      Universe.cell_transform (u.getCell (u.get_index row col))
        (u.alive_neighbour_count row col) := by
  simp only [Universe.tick, Universe.getCell, Universe.get_index]
  exact nested_fold_getD u.width
    (fun row2 column =>
      Universe.cell_transform (u.cells.getD (row2 * u.width + column) Cell.Dead)
        (u.alive_neighbour_count row2 column))
    u.height u.cells row col (by rw [hc, Nat.mul_comm]) hr hcol

/-- Witness for C1 on `sampleWrapGrid` at position (1, 2). -/
theorem tick_pointwise_witness :
    sampleWrapGrid.cells.length = sampleWrapGrid.width * sampleWrapGrid.height ∧
      1 < sampleWrapGrid.height ∧ 2 < sampleWrapGrid.width ∧
      sampleWrapGrid.tick.getCell (sampleWrapGrid.get_index 1 2) =
        Universe.cell_transform (sampleWrapGrid.getCell (sampleWrapGrid.get_index 1 2))
          (sampleWrapGrid.alive_neighbour_count 1 2) :=
  ⟨by decide, by decide, by decide,
    tick_pointwise sampleWrapGrid 1 2 (by decide) (by decide) (by decide)⟩

lemma tick_width (u : Universe) : u.tick.width = u.width := rfl

lemma tick_height (u : Universe) : u.tick.height = u.height := rfl

lemma tick_cells_length (u : Universe) : u.tick.cells.length = u.cells.length := by
  simp only [Universe.tick]
  exact foldl_preserves_length _
    (fun cs row => foldl_preserves_length _ (fun cs2 a => List.length_set ..) _ _) _ _

lemma ticks_width (n : Nat) : ∀ (u : Universe), (Universe.ticks n u).width = u.width := by
  induction n with
  | zero => intro u; rfl
  | succ n ih => intro u; rw [Universe.ticks, ih, tick_width]

lemma ticks_height (n : Nat) : ∀ (u : Universe), (Universe.ticks n u).height = u.height := by
  induction n with
  | zero => intro u; rfl
  | succ n ih => intro u; rw [Universe.ticks, ih, tick_height]

lemma ticks_cells_length (n : Nat) :
    ∀ (u : Universe), (Universe.ticks n u).cells.length = u.cells.length := by
  induction n with
  | zero => intro u; rfl
  | succ n ih => intro u; rw [Universe.ticks, ih, tick_cells_length]

/-- If `new` succeeds, the seeding fold kept the allocation length, so the
grid carries its construction dimensions and exactly `width * height`
cells. -/
lemma new_shape (width height : Nat) (alive : List (Nat × Nat)) (u : Universe)
    (h : Universe.new width height alive = some u) :
    u.width = width ∧ u.height = height ∧ u.cells.length = width * height := by
  have hfold : ∀ (l : List (Nat × Nat)) (cells res : List Cell),
      (l.foldlM
        (fun (cells : List Cell) (rc : Nat × Nat) =>
          let idx := rc.1 * width + rc.2
          if idx < cells.length then some (cells.set idx Cell.Alive) else none)
        cells) = some res → res.length = cells.length := by
    intro l
    induction l with
    | nil =>
      intro cells res hres
      simp only [List.foldlM_nil] at hres
      cases hres
      rfl
    | cons p t ih =>
      intro cells res hres
      simp only [List.foldlM_cons] at hres
      by_cases hidx : p.1 * width + p.2 < cells.length
      · simp only [hidx, if_pos] at hres
        have := ih _ _ hres
        rwa [List.length_set] at this
      · simp only [hidx, if_neg, if_false] at hres
        cases hres
  simp only [Universe.new, Option.map_eq_some'] at h
  obtain ⟨cells, hcells, hu⟩ := h
  have hlen := hfold _ _ _ hcells
  rw [List.length_replicate] at hlen
  cases hu
  exact ⟨rfl, rfl, hlen⟩

/-- Claim C5: after construction and after any number of `tick` calls, the
width and height keep their construction-time values and the cell vector
length stays `width * height`. -/
theorem invariant_after_construct_and_ticks (width height : Nat)
    (alive : List (Nat × Nat)) (u : Universe) (n : Nat)
    (h : Universe.new width height alive = some u) :
    (Universe.ticks n u).width = width ∧ (Universe.ticks n u).height = height ∧
      (Universe.ticks n u).cells.length = width * height := by
  obtain ⟨hw, hh, hl⟩ := new_shape width height alive u h
  exact ⟨by rw [ticks_width, hw], by rw [ticks_height, hh],
    by rw [ticks_cells_length, hl]⟩

/-- The 3 by 2 grid that `new 3 2 [(0,1), (1,2)]` produces, used as the C5
witness input. -/
def smallSeededGrid : Universe :=
  { width := 3, height := 2,
    cells := [Cell.Dead, Cell.Alive, Cell.Dead,
              Cell.Dead, Cell.Dead, Cell.Alive] }

/-- Witness for C5: three ticks of a concretely constructed 3 by 2 grid. -/
theorem invariant_after_construct_and_ticks_witness :
    Universe.new 3 2 [(0, 1), (1, 2)] = some smallSeededGrid ∧
      ((Universe.ticks 3 smallSeededGrid).width = 3 ∧
        (Universe.ticks 3 smallSeededGrid).height = 2 ∧
        (Universe.ticks 3 smallSeededGrid).cells.length = 3 * 2) :=
  ⟨by decide,
    invariant_after_construct_and_ticks 3 2 [(0, 1), (1, 2)] smallSeededGrid 3
      (by decide)⟩

/-- The 4 by 4 grid holding the 2 by 2 block still life. -/
def blockGrid : Universe :=
  { width := 4, height := 4,
    cells :=
      [Cell.Dead, Cell.Dead, Cell.Dead, Cell.Dead,
       Cell.Dead, Cell.Alive, Cell.Alive, Cell.Dead,
       Cell.Dead, Cell.Alive, Cell.Alive, Cell.Dead,
       Cell.Dead, Cell.Dead, Cell.Dead, Cell.Dead] }

/-- Claim C6: the 4 by 4 grid constructed with exactly the block cells
(1,1), (1,2), (2,1), (2,2) is a fixed point of `tick`: any number of
generations leaves the cell vector identical to the initial one. -/
theorem block_is_still_life (n : Nat) (u : Universe)
    (h : Universe.new 4 4 [(1, 1), (1, 2), (2, 1), (2, 2)] = some u) :
    (Universe.ticks n u).cells = u.cells := by
  have hnew : Universe.new 4 4 [(1, 1), (1, 2), (2, 1), (2, 2)] = some blockGrid := by
    decide
  rw [hnew] at h
  have hu : u = blockGrid := (Option.some.inj h).symm
  subst hu
  have hfix : blockGrid.tick = blockGrid := by decide
  have : ∀ m : Nat, Universe.ticks m blockGrid = blockGrid := by
    intro m
    induction m with
    | zero => rfl
    | succ m ih => rw [Universe.ticks, hfix, ih]
  rw [this n]

/-- Witness for C6 at five generations. -/
theorem block_is_still_life_witness :
    Universe.new 4 4 [(1, 1), (1, 2), (2, 1), (2, 2)] = some blockGrid ∧
      (Universe.ticks 5 blockGrid).cells = blockGrid.cells :=
  ⟨by decide, block_is_still_life 5 blockGrid (by decide)⟩

/-- The seeding fold of `new` succeeds exactly when every coordinate's
row-major index lands inside the allocation; the fold keeps the length
fixed, so the bound is against the initial length throughout. -/
lemma new_foldlM_isSome (width : Nat) :
    ∀ (alive : List (Nat × Nat)) (cells : List Cell),
      (alive.foldlM
        (fun (cells : List Cell) (rc : Nat × Nat) =>
          let idx := rc.1 * width + rc.2
          if idx < cells.length then some (cells.set idx Cell.Alive) else none)
        cells).isSome = true ↔
        ∀ p ∈ alive, p.1 * width + p.2 < cells.length := by
  intro alive
  induction alive with
  | nil =>
    intro cells
    simp
  | cons p t ih =>
    intro cells
    by_cases hidx : p.1 * width + p.2 < cells.length
    · simp only [List.foldlM_cons, hidx, if_pos, Option.bind_eq_bind,
        Option.some_bind]
      rw [ih (cells.set (p.1 * width + p.2) Cell.Alive)]
      simp [List.length_set, hidx]
    · simp only [List.foldlM_cons, hidx, if_neg, if_false, Option.bind_eq_bind,
        Option.none_bind]
      simp only [Option.isSome_none, Bool.false_eq_true, false_iff]
      intro hall
      exact hidx (hall p (List.mem_cons_self p t))

/-- Entrywise description of the seeding fold: a position reads `Alive`
exactly when some listed coordinate writes it, and keeps its initial value
otherwise. -/
lemma new_foldlM_getD (width : Nat) :
    ∀ (alive : List (Nat × Nat)) (cells res : List Cell),
      (alive.foldlM
        (fun (cells : List Cell) (rc : Nat × Nat) =>
          let idx := rc.1 * width + rc.2
          if idx < cells.length then some (cells.set idx Cell.Alive) else none)
        cells) = some res →
      ∀ j, res.getD j Cell.Dead =
        if ∃ p ∈ alive, p.1 * width + p.2 = j then Cell.Alive
        else cells.getD j Cell.Dead := by
  intro alive
  induction alive with
  | nil =>
    intro cells res hres j
    simp only [List.foldlM_nil] at hres
    cases hres
    simp
  | cons p t ih =>
    intro cells res hres j
    simp only [List.foldlM_cons] at hres
    by_cases hidx : p.1 * width + p.2 < cells.length
    · simp only [hidx, if_pos, Option.bind_eq_bind, Option.some_bind] at hres
      have hstep := ih _ _ hres j
      by_cases hmem : ∃ q ∈ t, q.1 * width + q.2 = j
      · obtain ⟨q, hq, hqj⟩ := hmem
        rw [hstep, if_pos ⟨q, hq, hqj⟩,
          if_pos ⟨q, List.mem_cons_of_mem p hq, hqj⟩]
      · rw [hstep, if_neg hmem]
        by_cases hj : p.1 * width + p.2 = j
        · rw [← hj, getD_set_eq _ _ _ hidx,
            if_pos ⟨p, List.mem_cons_self p t, rfl⟩]
        · rw [getD_set_ne _ _ _ _ hj]
          have hcons : ¬∃ q ∈ p :: t, q.1 * width + q.2 = j := by
            rintro ⟨q, hq, hqj⟩
            rcases List.mem_cons.mp hq with hq | hq
            · exact hj (hq ▸ hqj)
            · exact hmem ⟨q, hq, hqj⟩
          rw [if_neg hcons]
    · simp only [hidx, if_neg, if_false, Option.bind_eq_bind, Option.none_bind] at hres
      cases hres

lemma getD_replicate_dead (n j : Nat) :
    (List.replicate n Cell.Dead).getD j Cell.Dead = Cell.Dead := by
  rw [List.getD_eq_getElem?_getD, List.getElem?_replicate]
  split <;> rfl

/-- Row-major indexing is injective on in-range column offsets. -/
lemma row_major_index_inj (w a b c d : Nat) (hb : b < w) (hd : d < w)
    (h : a * w + b = c * w + d) : a = c ∧ b = d := by
  have hm1 : (a * w + b) % w = b := by
    rw [Nat.mul_comm a w, Nat.mul_add_mod]; exact Nat.mod_eq_of_lt hb
  have hm2 : (c * w + d) % w = d := by
    rw [Nat.mul_comm c w, Nat.mul_add_mod]; exact Nat.mod_eq_of_lt hd
  have hbd : b = d := by rw [← hm1, h, hm2]
  subst hbd
  have hac : a * w = c * w := by omega
  exact ⟨Nat.eq_of_mul_eq_mul_right (by omega) hac, rfl⟩

/-- Claim C4: constructing with in-range coordinates yields a grid of
`width * height` cells in which an in-range position is alive exactly when
it is listed (duplicates are idempotent), and every other cell is dead. -/
theorem new_seeds_exactly_listed_cells (width height : Nat)
    (alive : List (Nat × Nat)) ( _hw : 0 < width) ( _hh : 0 < height)
    (hin : ∀ p ∈ alive, p.1 < height ∧ p.2 < width) :
    ∃ u, Universe.new width height alive = some u ∧
      u.width = width ∧ u.height = height ∧ u.cells.length = width * height ∧
      ∀ row col, row < height → col < width →
        (u.getCell (row * width + col) = Cell.Alive ↔ (row, col) ∈ alive) := by
  have hbound : ∀ p ∈ alive,
      p.1 * width + p.2 < (List.replicate (width * height) Cell.Dead).length := by
    intro p hp
    rw [List.length_replicate]
    obtain ⟨h1, h2⟩ := hin p hp
    calc p.1 * width + p.2 < p.1 * width + width := by omega
      _ = (p.1 + 1) * width := by ring
      _ ≤ height * width := Nat.mul_le_mul_right width (by omega)
      _ = width * height := Nat.mul_comm height width
  have hsome := (new_foldlM_isSome width alive _).mpr hbound
  obtain ⟨res, hres⟩ := Option.isSome_iff_exists.mp hsome
  have hnew : Universe.new width height alive =
      some { width := width, height := height, cells := res } := by
    rw [Universe.new, hres, Option.map_some']
  obtain ⟨-, -, hlen⟩ := new_shape width height alive _ hnew
  refine ⟨_, hnew, rfl, rfl, hlen, ?_⟩
  intro row col hrow hcol
  have hchar := new_foldlM_getD width alive _ res hres (row * width + col)
  simp only [Universe.getCell]
  rw [hchar]
  constructor
  · intro halive
    by_cases hex : ∃ p ∈ alive, p.1 * width + p.2 = row * width + col
    · obtain ⟨p, hp, hpj⟩ := hex
      obtain ⟨hp1, hp2⟩ := hin p hp
      obtain ⟨hr, hc⟩ := row_major_index_inj width p.1 p.2 row col hp2 hcol hpj
      have : p = (row, col) := Prod.ext hr hc
      rwa [← this]
    · rw [if_neg hex, getD_replicate_dead] at halive
      cases halive
  · intro hmem
    rw [if_pos ⟨(row, col), hmem, rfl⟩]

/-- Witness for C4 constructing `sampleWrapGrid` and reading back (2, 2). -/
theorem new_seeds_exactly_listed_cells_witness :
    (0 : Nat) < 4 ∧
      (∀ p ∈ [((0 : Nat), (2 : Nat)), (2, 2)], p.1 < 4 ∧ p.2 < 4) ∧
      ∃ u, Universe.new 4 4 [(0, 2), (2, 2)] = some u ∧
        u.width = 4 ∧ u.height = 4 ∧ u.cells.length = 4 * 4 ∧
        ∀ row col, row < 4 → col < 4 →
          (u.getCell (row * 4 + col) = Cell.Alive ↔ (row, col) ∈ [(0, 2), (2, 2)]) :=
  ⟨by decide, by decide,
    new_seeds_exactly_listed_cells 4 4 [(0, 2), (2, 2)] (by decide) (by decide)
      (by decide)⟩

/-- C8 counterexample: constructing with zero width and zero height is not
rejected; it returns a degenerate grid with an empty cell vector. -/
theorem new_zero_dimensions_accepted :
    Universe.new 0 0 [] = some { width := 0, height := 0, cells := [] } := rfl

/-- Amended C8: with a zero dimension the constructor does not validate;
it returns a grid with an empty cell vector when the alive list is empty,
and fails (out-of-bounds write, a panic in the source) exactly when the
alive list is nonempty, because every write misses the empty allocation. -/
theorem new_zero_dimension_behaviour (width height : Nat)
    (alive : List (Nat × Nat)) (h : width = 0 ∨ height = 0) :
    Universe.new width height alive =
      if alive = [] then some { width := width, height := height, cells := [] }
      else none := by
  have hwh : width * height = 0 := by rcases h with h | h <;> simp [h]
  cases alive with
  | nil => simp [Universe.new, hwh]
  | cons p t =>
    have hneg : ¬(p.1 * width + p.2 < 0) := by omega
    simp [Universe.new, hwh, List.foldlM_cons, hneg]

/-- Witness for amended C8: zero width, nonempty alive list, construction
fails. -/
theorem new_zero_dimension_behaviour_witness :
    ((0 : Nat) = 0 ∨ (3 : Nat) = 0) ∧
      Universe.new 0 3 [(0, 0)] =
        (if [((0 : Nat), (0 : Nat))] = ([] : List (Nat × Nat))
         then some { width := 0, height := 3, cells := [] }
         else none) :=
  ⟨Or.inl rfl, new_zero_dimension_behaviour 0 3 [(0, 0)] (Or.inl rfl)⟩

/-- C9 counterexample: constructing a 4 by 4 grid with the out-of-range
coordinate (0, 5) does not fail: it silently returns a grid in which the
in-range cell (1, 1) (row-major index 5 = 0 * 4 + 5) is alive instead. -/
theorem new_out_of_range_accepted :
    Universe.new 4 4 [(0, 5)] =
      some { width := 4, height := 4,
             cells := [Cell.Dead, Cell.Dead, Cell.Dead, Cell.Dead,
                       Cell.Dead, Cell.Alive, Cell.Dead, Cell.Dead,
                       Cell.Dead, Cell.Dead, Cell.Dead, Cell.Dead,
                       Cell.Dead, Cell.Dead, Cell.Dead, Cell.Dead] } := by
  decide

/-- Amended C9: the constructor performs no coordinate validation; it fails
(out-of-bounds write, a panic in the source) exactly when some listed
coordinate's row-major index `row * width + col` falls outside the
allocation, and otherwise returns a grid, silently aliasing any
out-of-range coordinate to the in-range cell at that index. -/
theorem new_succeeds_iff_indices_in_allocation (width height : Nat)
    (alive : List (Nat × Nat)) :
    (Universe.new width height alive).isSome = true ↔
      ∀ p ∈ alive, p.1 * width + p.2 < width * height := by
  rw [Universe.new, Option.isSome_map', new_foldlM_isSome]
  simp [List.length_replicate]

lemma chunksOf_cons (w : Nat) (x : Cell) (xs : List Cell) (hw : w ≠ 0) :
    chunksOf w (x :: xs) = (x :: xs).take w :: chunksOf w ((x :: xs).drop w) := by
  rw [chunksOf]
  simp [hw]

/-- When the length is an exact multiple of a positive chunk size, `chunksOf`
produces one full chunk per row. -/
lemma chunksOf_of_length_mul :
    ∀ (hgt : Nat) (cells : List Cell) (w : Nat), 0 < w → cells.length = hgt * w →
      chunksOf w cells = (List.range hgt).map (fun r => (cells.drop (r * w)).take w) := by
  intro hgt
  induction hgt with
  | zero =>
    intro cells w hw hlen
    have hnil : cells = [] := List.length_eq_zero.mp (by omega)
    subst hnil
    rw [chunksOf]
    simp
  | succ hgt ih =>
    intro cells w hw hlen
    have hwle : w ≤ (hgt + 1) * w := Nat.le_mul_of_pos_left w (Nat.succ_pos hgt)
    have hpos : 0 < cells.length := by omega
    obtain ⟨x, xs, rfl⟩ : ∃ y ys, cells = y :: ys := by
      cases cells with
      | nil => simp at hpos
      | cons y ys => exact ⟨y, ys, rfl⟩
    rw [chunksOf_cons w x xs (by omega)]
    have hmul : (hgt + 1) * w = hgt * w + w := by ring
    have hdrop_len : ((x :: xs).drop w).length = hgt * w := by
      rw [List.length_drop, hlen]
      omega
    rw [ih ((x :: xs).drop w) w hw hdrop_len]
    rw [List.range_succ_eq_map, List.map_cons, List.map_map]
    congr 1
    · simp
    · apply List.map_congr_left
      intro r hr
      simp only [Function.comp_apply]
      rw [List.drop_drop]
      congr 2
      rw [Nat.succ_mul]
      omega

/-- A full-length window of a list, as a map over its positions. -/
lemma drop_take_eq_range_map (cells : List Cell) (start w : Nat)
    (hb : start + w ≤ cells.length) :
    (cells.drop start).take w =
      (List.range w).map (fun c => cells.getD (start + c) Cell.Dead) := by
  apply List.ext_getElem
  · rw [List.length_take, List.length_drop, List.length_map, List.length_range]
    omega
  · intro i h1 h2
    have hi : i < w := by
      rw [List.length_take, List.length_drop] at h1
      omega
    rw [List.getElem_take, List.getElem_drop, List.getElem_map, List.getElem_range]
    rw [List.getD_eq_getElem?_getD,
      List.getElem?_eq_getElem (show start + i < cells.length by omega)]
    rfl

/-- Claim C7: the rendered text is exactly `height` rows in order, each row
exactly `width` glyphs in column order — the glyph of the cell at row-major
index `row * width + col` — followed by a newline. -/
theorem render_matches_row_major_layout (u : Universe)
    (hw : 0 < u.width) ( _hh : 0 < u.height)
    (hc : u.cells.length = u.height * u.width) :
    u.render = String.mk
      (((List.range u.height).map (fun row =>
        (List.range u.width).map (fun col =>
          Cell.glyph (u.getCell (u.get_index row col))) ++ ['\n'])).flatten) := by
  rw [Universe.render]
  congr 1
  rw [Universe.renderChars]
  rw [chunksOf_of_length_mul u.height u.cells u.width hw hc]
  rw [List.map_map]
  congr 1
  apply List.map_congr_left
  intro r hr
  have hrh : r < u.height := List.mem_range.mp hr
  have hbound : r * u.width + u.width ≤ u.cells.length := by
    rw [hc]
    calc r * u.width + u.width = (r + 1) * u.width := by ring
      _ ≤ u.height * u.width := Nat.mul_le_mul_right u.width (by omega)
  simp only [Function.comp_apply]
  congr 1
  rw [drop_take_eq_range_map u.cells (r * u.width) u.width hbound, List.map_map]
  apply List.map_congr_left
  intro c hcm
  simp only [Function.comp_apply, Universe.getCell, Universe.get_index]

/-- A concrete 2 by 2 grid used as the C7 witness input. -/
def sampleRenderGrid : Universe :=
  { width := 2, height := 2,
    cells := [Cell.Alive, Cell.Dead, Cell.Dead, Cell.Alive] }

/-- Witness for C7 on `sampleRenderGrid`. -/
theorem render_matches_row_major_layout_witness :
    0 < sampleRenderGrid.width ∧ 0 < sampleRenderGrid.height ∧
      sampleRenderGrid.cells.length =
        sampleRenderGrid.height * sampleRenderGrid.width ∧
      sampleRenderGrid.render = String.mk
        (((List.range sampleRenderGrid.height).map (fun row =>
          (List.range sampleRenderGrid.width).map (fun col =>
            Cell.glyph (sampleRenderGrid.getCell
              (sampleRenderGrid.get_index row col))) ++ ['\n'])).flatten) :=
  ⟨by decide, by decide, by decide,
    render_matches_row_major_layout sampleRenderGrid (by decide) (by decide)
      (by decide)⟩
